import Mathlib

/-!
Verification of the Catalog Store CRUD operations of `scripts/project_ops.py`
(APM Agent Prototype): three CSV-backed tables (`tracks`, `projects`,
`project_tracks`) and the operations `create_project`, `add_track`,
`remove_track`, `list_tracks` together with their helpers.

The embedding is shallow: each CSV file is a list of rows (a Lean structure
per row schema, fields in file-column order); the file system is a `DB`
record holding the three tables; `sys.exit(1)` after an error message is an
`Except` error; `datetime.now().strftime("%Y-%m-%d")` is passed in as an
explicit `today : String` parameter.  `position` is stored as `Int` (the
source converts the CSV cell with Python `int(...)` wherever it reads it).
-/

namespace ProjectOps

/-- A row of `tracks.csv` (read-only catalog).  Only the columns the source
reads (`id`, `track_title`) are modelled; the others are never consulted by
`project_ops.py`. -/
structure TrackRow where
  id : String
  track_title : String
  deriving Repr, DecidableEq

/-- A row of `projects.csv`, columns in file order. -/
structure ProjectRow where
  project_id : String
  name : String
  description : String
  for_field : String
  keywords : String
  created_on : String
  modified_on : String
  status : String
  deadline : String
  collaborators : String
  deriving Repr, DecidableEq

/-- A row of `project_tracks.csv`, columns in file order. -/
structure PTrackRow where
  project_id : String
  track_id : String
  added_date : String
  position : Int
  notes : String
  deriving Repr, DecidableEq

deriving instance DecidableEq for Except

/-- The on-disk state the operations read and rewrite. -/
structure DB where
  projects : List ProjectRow
  projectTracks : List PTrackRow
  tracks : List TrackRow
  deriving Repr, DecidableEq

/-- The error taxonomy: each `print` + `sys.exit(1)` site of the source. -/
inductive Err where
  | notFoundProject (project_id : String)
  | notFoundTrack (track_id : String)
  | conflictDuplicate (project_id track_id : String)
  | notFoundMembership (project_id track_id : String)
  deriving Repr, DecidableEq

/-- `validate_project_exists`: linear scan of `projects.csv` for a row with
the given `project_id`. -/
def validate_project_exists (projects : List ProjectRow) (project_id : String) : Bool :=
  projects.any (fun row => row.project_id == project_id)

/-- `validate_track_exists`: linear scan of `tracks.csv` for a row whose `id`
column equals the given track id. -/
def validate_track_exists (tracks : List TrackRow) (track_id : String) : Bool :=
  tracks.any (fun row => row.id == track_id)

/-- `track_in_project`: scan of `project_tracks.csv` for a row matching both
`project_id` and `track_id`. -/
def track_in_project (pts : List PTrackRow) (project_id track_id : String) : Bool :=
  pts.any (fun row => row.project_id == project_id && row.track_id == track_id)

/-- `get_next_position`: running maximum (seeded with 0) of the `position`
column over the rows of the given project, plus one. -/
def get_next_position (pts : List PTrackRow) (project_id : String) : Int :=
  (pts.foldl (fun max_pos row =>
    if row.project_id == project_id then max max_pos row.position else max_pos) 0) + 1

/-- `get_track_title`: first catalog row with matching `id`, else the literal
`"Unknown"`. -/
def get_track_title (tracks : List TrackRow) (track_id : String) : String :=
  match tracks.find? (fun row => row.id == track_id) with
  | some row => row.track_title
  | none => "Unknown"

/-- `get_project_name`: first project row with matching id, else `"Unknown"`. -/
def get_project_name (projects : List ProjectRow) (project_id : String) : String :=
  match projects.find? (fun row => row.project_id == project_id) with
  | some row => row.name
  | none => "Unknown"

/-- The loop body of `update_project_modified`: walk the row list and set
`modified_on` on the FIRST row whose `project_id` matches (the Python loop
breaks after the first hit), leaving every other row untouched. -/
def set_modified_first : List ProjectRow → String → String → List ProjectRow
  | [], _, _ => []
  | row :: rows, project_id, today =>
    if row.project_id == project_id then { row with modified_on := today } :: rows
    else row :: set_modified_first rows project_id today

/-- `update_project_modified`: rewrite `projects.csv` with `modified_on` of
the first matching row set to today. -/
def update_project_modified (db : DB) (project_id today : String) : DB :=
  { db with projects := set_modified_first db.projects project_id today }

/-! ### Decimal rendering and parsing of project-id suffixes

`get_next_project_id` parses `int(row["project_id"].replace("P", ""))` to read
a suffix and zero-pads the successor of the maximum to at least three digits
(the 03d format) to render the next id.  `natChars n` is
the standard decimal rendering of `n` (most significant digit first, empty
for 0 — the zero-padding below supplies the digits of 0), written with a
fuel argument so that it is structurally recursive and kernel-computable;
`py_int_digits` models Python `int()` on the unsigned decimal literals this
program produces (positional left fold over the digit characters). -/

/-- The numeric value of a decimal digit character. -/
def charVal (c : Char) : Nat := c.toNat - 48

/-- Decimal digits of `n`, most significant first (`[]` for `n = 0`).
The fuel argument starts at `n`, which is enough since `n / 10 < n`. -/
def natCharsAux : Nat → Nat → List Char
  | _, 0 => []
  | 0, _ + 1 => []
  | fuel + 1, n + 1 =>
    natCharsAux fuel ((n + 1) / 10) ++ [Nat.digitChar ((n + 1) % 10)]

/-- Decimal rendering of `n`, most significant digit first. -/
def natChars (n : Nat) : List Char := natCharsAux n n

/-- The 03d format: the decimal digits of `n`, left-padded with the digit 0
to at least three characters. -/
def pad3 (n : Nat) : List Char :=
  List.replicate (3 - (natChars n).length) '0' ++ natChars n

/-- The assigned project-id string for numeric suffix `n`: the letter P
followed by the zero-padded digits (the P + 03d format). -/
def pid_string (n : Nat) : String := String.mk ('P' :: pad3 n)

/-- Python `s.replace("P", "")`: delete every occurrence of the letter P. -/
def strip_P (s : String) : String :=
  String.mk (s.data.filter (fun c => c != 'P'))

/-- Python `int(s)` on the strings this program parses: defined exactly on
nonempty all-digit strings (ids never carry signs, spaces or underscores),
accumulating digits positionally. -/
def py_int_digits (s : String) : Option Nat :=
  if !s.data.isEmpty && s.data.all Char.isDigit then
    some (s.data.foldl (fun acc c => 10 * acc + charVal c) 0)
  else none

/-- One iteration of the `get_next_project_id` loop:
`max_id = max(max_id, int(row["project_id"].replace("P", "")))`, propagating
a parse failure. -/
def suffix_step (acc : Option Nat) (row : ProjectRow) : Option Nat := do
  let m ← acc
  let v ← py_int_digits (strip_P row.project_id)
  pure (max m v)

/-- The loop of `get_next_project_id`: running maximum (seeded with 0) of
`int(row["project_id"].replace("P", ""))` over all project rows; `none` when
some id fails to parse (Python would raise before any write). -/
def max_suffix (projects : List ProjectRow) : Option Nat :=
  projects.foldl suffix_step (some 0)

/-- `get_next_project_id`: the letter P followed by the zero-padded successor of the
maximum numeric suffix (`P001` on an empty table, since the seed is 0). -/
def get_next_project_id (projects : List ProjectRow) : Option String :=
  (max_suffix projects).map (fun m => pid_string (m + 1))

/-! ### The four operations -/

/-- `create_project`: assign the next id, build the new row dated today
in `created_on` and `modified_on` and status `"Active"`, append it and write
the table back.  Returns the new state and the new project id. -/
def create_project (db : DB)
    (name description for_field keywords deadline collaborators today : String) :
    Option (DB × String) :=
  (get_next_project_id db.projects).map (fun project_id =>
    let new_row : ProjectRow :=
      { project_id := project_id, name := name, description := description,
        for_field := for_field, keywords := keywords, created_on := today,
        modified_on := today, status := "Active", deadline := deadline,
        collaborators := collaborators }
    ({ db with projects := db.projects ++ [new_row] }, project_id))

/-- `add_track`: the three precondition checks in source order, then append
the membership row at the next position and touch the `modified_on` field
of the parent. -/
def add_track (db : DB) (project_id track_id notes today : String) :
    Except Err DB :=
  if !validate_project_exists db.projects project_id then
    .error (.notFoundProject project_id)
  else if !validate_track_exists db.tracks track_id then
    .error (.notFoundTrack track_id)
  else if track_in_project db.projectTracks project_id track_id then
    .error (.conflictDuplicate project_id track_id)
  else
    let new_row : PTrackRow :=
      { project_id := project_id, track_id := track_id, added_date := today,
        position := get_next_position db.projectTracks project_id,
        notes := notes }
    .ok (update_project_modified
      { db with projectTracks := db.projectTracks ++ [new_row] }
      project_id today)

/-- `remove_track`: drop every row matching the composite key; report
`NotFound(membership)` when the row count is unchanged, otherwise write the
table back and touch the `modified_on` field of the parent. -/
def remove_track (db : DB) (project_id track_id today : String) :
    Except Err DB :=
  let rows := db.projectTracks.filter
    (fun r => !(r.project_id == project_id && r.track_id == track_id))
  if rows.length == db.projectTracks.length then
    .error (.notFoundMembership project_id track_id)
  else
    .ok (update_project_modified { db with projectTracks := rows }
      project_id today)

/-- One entry of the `list_tracks` result (position, track id, display
title, date added, notes). -/
structure TrackEntry where
  position : Int
  track_id : String
  title : String
  added_date : String
  notes : String
  deriving Repr, DecidableEq

/-- `list_tracks`: check the project exists, collect its membership rows in
file order, resolve display titles (softly), and stable-sort ascending by
`position` (Python `list.sort` is stable; so is `List.mergeSort`). -/
def list_tracks (db : DB) (project_id : String) :
    Except Err (List TrackEntry) :=
  if !validate_project_exists db.projects project_id then
    .error (.notFoundProject project_id)
  else
    let tracks := (db.projectTracks.filter
        (fun r => r.project_id == project_id)).map
      (fun r =>
        { position := r.position, track_id := r.track_id,
          title := get_track_title db.tracks r.track_id,
          added_date := r.added_date, notes := r.notes })
    .ok (tracks.mergeSort (fun a b => a.position ≤ b.position))

/-! ### Process-level semantics

Every error path of the source prints and calls `sys.exit(1)` before any
write, so the file system after a failed invocation is the pre-state.
`applyOp` is the effect of one CLI invocation on the stored tables. -/

/-- One CLI invocation, with `datetime.now()` made explicit. -/
inductive Op where
  | createProject
      (name description for_field keywords deadline collaborators today : String)
  | addTrack (project_id track_id notes today : String)
  | removeTrack (project_id track_id today : String)
  deriving Repr, DecidableEq

/-- The file-system effect of one invocation (failed invocations, including
a Python exception inside `create_project`, leave the tables untouched). -/
def applyOp (db : DB) : Op → DB
  | .createProject name description for_field keywords deadline collaborators
      today =>
    match create_project db name description for_field keywords deadline
        collaborators today with
    | some (db', _) => db'
    | none => db
  | .addTrack project_id track_id notes today =>
    match add_track db project_id track_id notes today with
    | .ok db' => db'
    | .error _ => db
  | .removeTrack project_id track_id today =>
    match remove_track db project_id track_id today with
    | .ok db' => db'
    | .error _ => db

/-- The file-system effect of a sequence of invocations. -/
def applyOps (db : DB) (ops : List Op) : DB := ops.foldl applyOp db

/-! ### Spec-side notions

These definitions transcribe the vocabulary of the SPEC (valid table, sequence of
`CreateProject` calls, the membership invariants, the formula the spec gives for the
next position) so the claims can be stated and compared with the source
functions above. -/

/-- A well-formed project id: the literal rendering `pid_string k` of its own
numeric suffix (letter P + zero-padded digits), as the id format of the
spec demands. -/
def valid_pid (s : String) : Bool :=
  match py_int_digits (strip_P s) with
  | some k => s == pid_string k
  | none => false

/-- The notion of "valid projects table" from the spec: every row carries a well-formed
project id. -/
def valid_projects (projects : List ProjectRow) : Bool :=
  projects.all (fun row => valid_pid row.project_id)

/-- The argument bundle of one `CreateProject` call (with its date). -/
structure CreateArgs where
  name : String
  description : String
  for_field : String
  keywords : String
  deadline : String
  collaborators : String
  today : String
  deriving Repr, DecidableEq

/-- A sequence of `CreateProject` calls: the final state and the list of
assigned ids, in call order (a Python crash stops the sequence). -/
def run_creates (db : DB) : List CreateArgs → DB × List String
  | [] => (db, [])
  | a :: rest =>
    match create_project db a.name a.description a.for_field a.keywords
        a.deadline a.collaborators a.today with
    | some (db', new_id) =>
      let r := run_creates db' rest
      (r.1, new_id :: r.2)
    | none => (db, [])

/-- The formula the SPEC gives for the next position: `1 + max(position)` over the
rows of that project (`0` if none).  Stated independently of
`get_next_position` (which folds over the whole table with a guard) so their
agreement is a theorem, not a definition. -/
def spec_next_position (pts : List PTrackRow) (project_id : String) : Int :=
  ((pts.filter (fun r => r.project_id == project_id)).map
    (fun r => r.position)).foldl max 0 + 1

/-- Invariant: each `(project_id, track_id)` pair appears at most once. -/
def pairs_unique (pts : List PTrackRow) : Prop :=
  pts.Pairwise (fun r s => ¬(r.project_id = s.project_id ∧ r.track_id = s.track_id))

/-- Invariant: within each project, `position` values are pairwise
distinct. -/
def positions_distinct (pts : List PTrackRow) : Prop :=
  pts.Pairwise (fun r s => r.project_id = s.project_id → r.position ≠ s.position)

/-- The `position` column of the rows of one project, in file order. -/
def positions_of (pts : List PTrackRow) (project_id : String) : List Int :=
  (pts.filter (fun r => r.project_id == project_id)).map (fun r => r.position)

/-- Dense positions: the positions of every project read `1, 2, …, n` in file
order. -/
def is_dense (pts : List PTrackRow) : Prop :=
  ∀ project_id, positions_of pts project_id =
    (List.range (positions_of pts project_id).length).map (fun i : Nat => (i : Int) + 1)

/-- Whether an invocation is a `remove_track` call. -/
def is_removeOp : Op → Bool
  | .removeTrack _ _ _ => true
  | _ => false

/-! ### Concrete fixtures (used by witnesses and counterexamples) -/

/-- A two-track catalog. -/
def exTracks : List TrackRow := [⟨"T1", "Song One"⟩, ⟨"T2", "Song Two"⟩]

/-- A single valid project row `P001`. -/
def exProject : ProjectRow :=
  ⟨"P001", "N", "D", "F", "K", "2025-01-01", "2025-01-01", "Active",
    "2025-12-31", "C"⟩

/-- A state with one project holding one track. -/
def exDB : DB := ⟨[exProject], [⟨"P001", "T1", "2025-01-02", 1, ""⟩], exTracks⟩

/-- A state whose membership table holds a duplicated composite key (it
violates the uniqueness invariant, but it is a syntactically well-formed
`project_tracks` table). -/
def dupDB : DB :=
  ⟨[exProject],
    [⟨"P001", "T1", "2025-01-02", 1, ""⟩, ⟨"P001", "T1", "2025-01-02", 1, ""⟩],
    exTracks⟩

/-- An argument bundle for `CreateProject` witnesses. -/
def exCreateArgs : CreateArgs :=
  ⟨"N2", "D2", "F2", "K2", "2026-01-31", "C2", "2026-01-01"⟩

/-- A state with an orphan membership row: `P009` has a row in
`project_tracks` but no row in `projects`. -/
def orphanDB : DB :=
  ⟨[exProject], [⟨"P009", "T1", "2025-01-02", 1, ""⟩], exTracks⟩


lemma charVal_digitChar {d : Nat} (h : d < 10) :
    charVal (Nat.digitChar d) = d := by
  interval_cases d <;> decide

lemma isDigit_digitChar {d : Nat} (h : d < 10) :
    (Nat.digitChar d).isDigit = true := by
  interval_cases d <;> decide

lemma natCharsAux_fuel (n : Nat) : ∀ fuel₁ fuel₂, n ≤ fuel₁ → n ≤ fuel₂ →
    natCharsAux fuel₁ n = natCharsAux fuel₂ n := by
  induction n using Nat.strong_induction_on with
  | _ n ih =>
    intro fuel₁ fuel₂ h₁ h₂
    match n, fuel₁, fuel₂ with
    | 0, f₁, f₂ => cases f₁ <;> cases f₂ <;> rfl
    | n + 1, f₁ + 1, f₂ + 1 =>
      have hdiv : (n + 1) / 10 < n + 1 :=
        Nat.div_lt_self (Nat.succ_pos n) (by norm_num)
      simp only [natCharsAux, List.append_cancel_right_eq]
      exact ih ((n + 1) / 10) hdiv f₁ f₂
        (Nat.lt_succ_iff.mp (lt_of_lt_of_le hdiv h₁))
        (Nat.lt_succ_iff.mp (lt_of_lt_of_le hdiv h₂))

lemma natChars_eq_of_pos {n : Nat} (h : 0 < n) :
    natChars n = natChars (n / 10) ++ [Nat.digitChar (n % 10)] := by
  obtain ⟨m, rfl⟩ : ∃ m, n = m + 1 := ⟨n - 1, by omega⟩
  have hdiv : (m + 1) / 10 < m + 1 :=
    Nat.div_lt_self (Nat.succ_pos m) (by norm_num)
  show natCharsAux (m + 1) (m + 1) = _
  simp only [natCharsAux, List.append_cancel_right_eq]
  exact natCharsAux_fuel ((m + 1) / 10) m ((m + 1) / 10)
    (Nat.lt_succ_iff.mp hdiv) le_rfl
lemma natChars_all_digit (n : Nat) : ∀ c ∈ natChars n, c.isDigit = true := by
  induction n using Nat.strong_induction_on with
  | _ n ih =>
    rcases Nat.eq_zero_or_pos n with rfl | hpos
    · intro c hc; cases hc
    · rw [natChars_eq_of_pos hpos]
      intro c hc
      rcases List.mem_append.mp hc with h | h
      · exact ih (n / 10) (Nat.div_lt_self hpos (by norm_num)) c h
      · rcases List.mem_singleton.mp h with rfl
        exact isDigit_digitChar (Nat.mod_lt n (by norm_num))

lemma natChars_foldl (n : Nat) : ∀ acc : Nat,
    (natChars n).foldl (fun acc c => 10 * acc + charVal c) acc =
      acc * 10 ^ (natChars n).length + n := by
  induction n using Nat.strong_induction_on with
  | _ n ih =>
    intro acc
    rcases Nat.eq_zero_or_pos n with rfl | hpos
    · simp [natChars, natCharsAux]
    · rw [natChars_eq_of_pos hpos, List.foldl_append, List.length_append]
      simp only [List.foldl_cons, List.foldl_nil, List.length_singleton]
      rw [ih (n / 10) (Nat.div_lt_self hpos (by norm_num)) acc]
      rw [charVal_digitChar (Nat.mod_lt n (by norm_num))]
      rw [pow_succ]
      have := Nat.div_add_mod n 10
      ring_nf
      omega
lemma pad3_all_digit (n : Nat) : ∀ c ∈ pad3 n, c.isDigit = true := by
  intro c hc
  rcases List.mem_append.mp hc with h | h
  · rcases List.eq_of_mem_replicate h with rfl; decide
  · exact natChars_all_digit n c h

lemma pad3_ne_nil (n : Nat) : pad3 n ≠ [] := by
  have : (3 - (natChars n).length) + (natChars n).length ≠ 0 := by omega
  intro h
  apply this
  rw [← List.length_replicate (3 - (natChars n).length) '0',
    ← List.length_append, ← pad3, h, List.length_nil]

lemma pad3_foldl (n : Nat) :
    (pad3 n).foldl (fun acc c => 10 * acc + charVal c) 0 = n := by
  rw [pad3, List.foldl_append]
  have hz : ∀ k, (List.replicate k '0').foldl
      (fun acc c => 10 * acc + charVal c) 0 = 0 := by
    intro k
    induction k with
    | zero => rfl
    | succ k ihk => rw [List.replicate_succ, List.foldl_cons]; simpa using ihk
  rw [hz, natChars_foldl]
  simp

lemma py_int_digits_pad3 (n : Nat) :
    py_int_digits (String.mk (pad3 n)) = some n := by
  rw [py_int_digits]
  have hne : (pad3 n).isEmpty = false := by
    rcases h : pad3 n with _ | ⟨c, l⟩
    · exact absurd h (pad3_ne_nil n)
    · rfl
  have hall : (pad3 n).all Char.isDigit = true :=
    List.all_eq_true.mpr (fun c hc => pad3_all_digit n c hc)
  simp only [String.data]
  rw [hne, hall]
  simp [pad3_foldl n]
lemma isDigit_ne_P {c : Char} (h : c.isDigit = true) : (c != 'P') = true := by
  rcases h' : c == 'P' with _ | _
  · simp [bne, h']
  · exfalso
    rcases eq_of_beq h'
    exact absurd h (by decide)

lemma strip_P_pid_string (n : Nat) :
    strip_P (pid_string n) = String.mk (pad3 n) := by
  rw [strip_P, pid_string]
  simp only [String.data]
  rw [List.filter_cons]
  have : ('P' != 'P') = false := by decide
  rw [this]
  simp only [Bool.false_eq_true, if_false]
  congr 1
  exact List.filter_eq_self.mpr (fun c hc => isDigit_ne_P (pad3_all_digit n c hc))

lemma pid_roundtrip (n : Nat) :
    py_int_digits (strip_P (pid_string n)) = some n := by
  rw [strip_P_pid_string, py_int_digits_pad3]

lemma pid_string_injective {m n : Nat} (h : pid_string m = pid_string n) :
    m = n := by
  have hm := pid_roundtrip m
  rw [h, pid_roundtrip n] at hm
  exact (Option.some_inj.mp hm).symm

lemma valid_pid_iff {s : String} :
    valid_pid s = true ↔ ∃ k, s = pid_string k := by
  constructor
  · intro h
    rw [valid_pid] at h
    rcases hp : py_int_digits (strip_P s) with _ | k
    · rw [hp] at h; cases h
    · rw [hp] at h; exact ⟨k, eq_of_beq h⟩
  · rintro ⟨k, rfl⟩
    rw [valid_pid, pid_roundtrip k]
    simp

lemma valid_pid_string (k : Nat) : valid_pid (pid_string k) = true :=
  valid_pid_iff.mpr ⟨k, rfl⟩
lemma suffix_step_valid {a k : Nat} {row : ProjectRow}
    (h : row.project_id = pid_string k) :
    suffix_step (some a) row = some (max a k) := by
  rw [suffix_step]
  simp only [Option.bind_eq_bind, Option.some_bind]
  rw [h, pid_roundtrip k]
  rfl

lemma foldl_suffix_step (l : List ProjectRow) :
    ∀ a : Nat, (∀ row ∈ l, valid_pid row.project_id = true) →
    ∃ m, l.foldl suffix_step (some a) = some m ∧ a ≤ m ∧
      ∀ row ∈ l, ∀ k, row.project_id = pid_string k → k ≤ m := by
  induction l with
  | nil =>
    intro a _
    exact ⟨a, rfl, le_rfl, by intro row hr; cases hr⟩
  | cons r t iht =>
    intro a hv
    obtain ⟨k₀, hk₀⟩ := valid_pid_iff.mp (hv r (List.mem_cons_self r t))
    obtain ⟨m, hm, ham, hbound⟩ :=
      iht (max a k₀) (fun row hr => hv row (List.mem_cons_of_mem r hr))
    refine ⟨m, ?_, le_trans (le_max_left a k₀) ham, ?_⟩
    · rw [List.foldl_cons, suffix_step_valid hk₀]; exact hm
    · intro row hr k hk
      rcases List.mem_cons.mp hr with rfl | hr
      · have : k = k₀ := pid_string_injective (hk.symm.trans hk₀)
        exact this ▸ le_trans (le_max_right a k₀) ham
      · exact hbound row hr k hk

lemma valid_projects_iff {projects : List ProjectRow} :
    valid_projects projects = true ↔
      ∀ row ∈ projects, valid_pid row.project_id = true := by
  rw [valid_projects, List.all_eq_true]

lemma max_suffix_spec {projects : List ProjectRow}
    (h : valid_projects projects = true) :
    ∃ m, max_suffix projects = some m ∧
      ∀ row ∈ projects, ∀ k, row.project_id = pid_string k → k ≤ m := by
  obtain ⟨m, hm, _, hb⟩ := foldl_suffix_step projects 0 (valid_projects_iff.mp h)
  exact ⟨m, hm, hb⟩

lemma max_suffix_append (projects : List ProjectRow) (r : ProjectRow) :
    max_suffix (projects ++ [r]) = suffix_step (max_suffix projects) r := by
  rw [max_suffix, max_suffix, List.foldl_append, List.foldl_cons, List.foldl_nil]

lemma create_project_eq (db : DB)
    (name description for_field keywords deadline collaborators today : String)
    {m : Nat} (hm : max_suffix db.projects = some m) :
    create_project db name description for_field keywords deadline
        collaborators today =
      some ({ db with projects := db.projects ++
          [⟨pid_string (m + 1), name, description, for_field, keywords,
            today, today, "Active", deadline, collaborators⟩] },
        pid_string (m + 1)) := by
  rw [create_project, get_next_project_id, hm]
  rfl
lemma valid_projects_append {projects : List ProjectRow} {r : ProjectRow}
    (h : valid_projects projects = true) (hr : valid_pid r.project_id = true) :
    valid_projects (projects ++ [r]) = true := by
  rw [valid_projects_iff]
  intro row hrow
  rcases List.mem_append.mp hrow with hl | hl
  · exact valid_projects_iff.mp h row hl
  · rcases List.mem_singleton.mp hl with rfl; exact hr

lemma run_creates_main (argsList : List CreateArgs) :
    ∀ (db : DB) (m : Nat), valid_projects db.projects = true →
      max_suffix db.projects = some m →
      ∃ ks : List Nat, (run_creates db argsList).2 = ks.map pid_string ∧
        ks.Chain' (· < ·) ∧ (∀ k ∈ ks, m < k) ∧
        ks.length = argsList.length ∧
        valid_projects (run_creates db argsList).1.projects = true := by
  induction argsList with
  | nil =>
    intro db m hv _
    exact ⟨[], rfl, List.chain'_nil, (by intro k hk; cases hk), rfl, hv⟩
  | cons a rest ih =>
    intro db m hv hm
    have hstep := create_project_eq db a.name a.description a.for_field
      a.keywords a.deadline a.collaborators a.today hm
    have hvalid' : valid_projects ({ db with projects := db.projects ++
        [⟨pid_string (m + 1), a.name, a.description, a.for_field, a.keywords,
          a.today, a.today, "Active", a.deadline, a.collaborators⟩] } :
          DB).projects = true :=
      valid_projects_append hv (valid_pid_string (m + 1))
    have hmax' : max_suffix ({ db with projects := db.projects ++
        [⟨pid_string (m + 1), a.name, a.description, a.for_field, a.keywords,
          a.today, a.today, "Active", a.deadline, a.collaborators⟩] } :
          DB).projects = some (m + 1) := by
      show max_suffix (db.projects ++ _) = _
      rw [max_suffix_append, hm, suffix_step_valid rfl,
        Nat.max_eq_right (Nat.le_succ m)]
    obtain ⟨ks, hks, hchain, hgt, hlen, hv2⟩ := ih _ (m + 1) hvalid' hmax'
    refine ⟨(m + 1) :: ks, ?_, ?_, ?_, ?_, ?_⟩
    · simp only [run_creates, hstep, List.map_cons]
      rw [hks]
    · rw [List.chain'_cons']
      exact ⟨fun h hh => hgt h (List.mem_of_mem_head? hh), hchain⟩
    · intro k hk
      rcases List.mem_cons.mp hk with rfl | hk
      · exact Nat.lt_succ_self m
      · exact lt_trans (Nat.lt_succ_self m) (hgt k hk)
    · simp only [List.length_cons, hlen]
    · simp only [run_creates, hstep]
      exact hv2
lemma run_creates_index (argsList : List CreateArgs) :
    ∀ (db : DB), valid_projects db.projects = true →
    ∀ i, i < argsList.length →
      ∃ m, max_suffix (run_creates db (argsList.take i)).1.projects = some m ∧
        (run_creates db argsList).2[i]? = some (pid_string (m + 1)) := by
  induction argsList with
  | nil => intro db _ i hi; simp at hi
  | cons a rest ih =>
    intro db hv i hi
    obtain ⟨m, hm, _⟩ := max_suffix_spec hv
    have hstep := create_project_eq db a.name a.description a.for_field
      a.keywords a.deadline a.collaborators a.today hm
    have hvalid' : valid_projects ({ db with projects := db.projects ++
        [⟨pid_string (m + 1), a.name, a.description, a.for_field, a.keywords,
          a.today, a.today, "Active", a.deadline, a.collaborators⟩] } :
          DB).projects = true :=
      valid_projects_append hv (valid_pid_string (m + 1))
    match i with
    | 0 =>
      refine ⟨m, ?_, ?_⟩
      · simpa [run_creates] using hm
      · simp only [run_creates, hstep, List.getElem?_cons_zero]
    | i + 1 =>
      obtain ⟨m', hm', hid'⟩ := ih _ hvalid' i (by simpa using hi)
      refine ⟨m', ?_, ?_⟩
      · simpa only [List.take_succ_cons, run_creates, hstep] using hm'
      · simpa only [run_creates, hstep, List.getElem?_cons_succ] using hid'
/-- C1: for every sequence of `CreateProject` calls starting from any valid
projects table, each assigned project id equals the letter P followed by the
zero-padded 3-digit rendering of (maximum numeric suffix among existing
ids) + 1, is `"P001"` on an empty table, and across the sequence the
assigned ids are strictly increasing (by numeric suffix) and never reused:
pairwise distinct and distinct from every pre-existing id. -/
theorem c1_createProject_id_assignment (db : DB) (argsList : List CreateArgs)
    (hv : valid_projects db.projects = true) :
    (run_creates db argsList).2.length = argsList.length ∧
    (∀ i, i < argsList.length →
      ∃ m, max_suffix (run_creates db (argsList.take i)).1.projects = some m ∧
        (run_creates db argsList).2[i]? = some (pid_string (m + 1))) ∧
    (db.projects = [] → 0 < argsList.length →
      (run_creates db argsList).2[0]? = some "P001") ∧
    (∃ ks : List Nat, (run_creates db argsList).2 = ks.map pid_string ∧
      ks.Chain' (· < ·)) ∧
    (run_creates db argsList).2.Pairwise (· ≠ ·) ∧
    (∀ s ∈ (run_creates db argsList).2, ∀ row ∈ db.projects,
      s ≠ row.project_id) := by
  obtain ⟨m, hm, hbound⟩ := max_suffix_spec hv
  obtain ⟨ks, hks, hchain, hgt, hlen, _⟩ :=
    run_creates_main argsList db m hv hm
  have hpair : ks.Pairwise (· < ·) :=
    List.chain'_iff_pairwise.mp hchain
  refine ⟨?_, run_creates_index argsList db hv, ?_, ⟨ks, hks, hchain⟩, ?_, ?_⟩
  · rw [hks, List.length_map, hlen]
  · intro hemp hpos
    obtain ⟨m₀, hm₀, hid₀⟩ := run_creates_index argsList db hv 0 hpos
    rw [List.take_zero] at hm₀
    have hdb : run_creates db [] = (db, []) := rfl
    rw [hdb] at hm₀
    rw [hemp] at hm₀
    have : m₀ = 0 := by
      have h0 : max_suffix ([] : List ProjectRow) = some 0 := rfl
      rw [h0] at hm₀
      exact (Option.some_inj.mp hm₀).symm
    rw [this] at hid₀
    have hp1 : pid_string (0 + 1) = "P001" := by decide
    rw [hp1] at hid₀
    exact hid₀
  · rw [hks, List.pairwise_map]
    exact hpair.imp (fun hlt heq =>
      absurd (pid_string_injective heq) (Nat.ne_of_lt hlt))
  · intro s hs row hrow heq
    rw [hks] at hs
    obtain ⟨k, hk, rfl⟩ := List.mem_map.mp hs
    obtain ⟨k', hk'⟩ :=
      valid_pid_iff.mp (valid_projects_iff.mp hv row hrow)
    have h1 : k' ≤ m := hbound row hrow k' hk'
    have h2 : m < k := hgt k hk
    have : k = k' := pid_string_injective (heq.trans hk')
    omega
lemma validate_project_exists_iff {projects : List ProjectRow} {pid : String} :
    validate_project_exists projects pid = true ↔
      ∃ row ∈ projects, row.project_id = pid := by
  rw [validate_project_exists, List.any_eq_true]
  simp only [beq_iff_eq]

lemma validate_track_exists_iff {tracks : List TrackRow} {tid : String} :
    validate_track_exists tracks tid = true ↔ ∃ row ∈ tracks, row.id = tid := by
  rw [validate_track_exists, List.any_eq_true]
  simp only [beq_iff_eq]

lemma track_in_project_iff {pts : List PTrackRow} {pid tid : String} :
    track_in_project pts pid tid = true ↔
      ∃ r ∈ pts, r.project_id = pid ∧ r.track_id = tid := by
  rw [track_in_project, List.any_eq_true]
  simp only [Bool.and_eq_true, beq_iff_eq]

lemma track_in_project_eq_false {pts : List PTrackRow} {pid tid : String} :
    track_in_project pts pid tid = false ↔
      ∀ r ∈ pts, ¬(r.project_id = pid ∧ r.track_id = tid) := by
  rw [← Bool.not_eq_true, track_in_project_iff]
  constructor
  · intro h r hr hrc; exact h ⟨r, hr, hrc⟩
  · rintro h ⟨r, hr, hrc⟩; exact h r hr hrc

lemma guarded_foldl_max (pts : List PTrackRow) (pid : String) : ∀ a : Int,
    pts.foldl (fun max_pos row =>
      if row.project_id == pid then max max_pos row.position else max_pos) a =
    ((pts.filter (fun r => r.project_id == pid)).map
      (fun r => r.position)).foldl max a := by
  induction pts with
  | nil => intro a; rfl
  | cons r t ih =>
    intro a
    rw [List.foldl_cons, List.filter_cons]
    cases h : r.project_id == pid
    · simp only [h, Bool.false_eq_true, if_false]
      exact ih a
    · simp only [h, if_true, List.map_cons, List.foldl_cons]
      exact ih (max a r.position)

lemma get_next_position_eq_spec (pts : List PTrackRow) (pid : String) :
    get_next_position pts pid = spec_next_position pts pid := by
  rw [get_next_position, spec_next_position]
  congr 1
  exact guarded_foldl_max pts pid 0

lemma foldl_max_bounds (l : List Int) : ∀ a : Int,
    a ≤ l.foldl max a ∧ ∀ x ∈ l, x ≤ l.foldl max a := by
  induction l with
  | nil => intro a; exact ⟨le_rfl, by intro x hx; cases hx⟩
  | cons y t ih =>
    intro a
    rw [List.foldl_cons]
    obtain ⟨h1, h2⟩ := ih (max a y)
    refine ⟨le_trans (le_max_left a y) h1, ?_⟩
    intro x hx
    rcases List.mem_cons.mp hx with rfl | hx
    · exact le_trans (le_max_right a x) h1
    · exact h2 x hx

lemma position_lt_next (pts : List PTrackRow) (pid : String) :
    ∀ r ∈ pts, r.project_id = pid → r.position < get_next_position pts pid := by
  intro r hr hp
  rw [get_next_position_eq_spec, spec_next_position]
  have hmem : r.position ∈ (pts.filter
      (fun r => r.project_id == pid)).map (fun r => r.position) :=
    List.mem_map.mpr ⟨r, List.mem_filter.mpr ⟨hr, beq_iff_eq.mpr hp⟩, rfl⟩
  have := (foldl_max_bounds _ 0).2 r.position hmem
  omega
lemma set_modified_first_spec (projects : List ProjectRow) (pid today : String) :
    ((∀ row ∈ projects, row.project_id ≠ pid) ∧
      set_modified_first projects pid today = projects) ∨
    (∃ l1 r l2, projects = l1 ++ r :: l2 ∧
      (∀ x ∈ l1, x.project_id ≠ pid) ∧ r.project_id = pid ∧
      set_modified_first projects pid today =
        l1 ++ { r with modified_on := today } :: l2) := by
  induction projects with
  | nil => exact Or.inl ⟨(by intro row h; cases h), rfl⟩
  | cons a t ih =>
    cases h : a.project_id == pid
    · have ha : a.project_id ≠ pid := by
        intro he; rw [beq_iff_eq.mpr he] at h; cases h
      rcases ih with ⟨hall, heq⟩ | ⟨l1, r, l2, hdec, hl1, hr, heq⟩
      · refine Or.inl ⟨?_, ?_⟩
        · intro row hrow
          rcases List.mem_cons.mp hrow with rfl | hrow
          · exact ha
          · exact hall row hrow
        · rw [set_modified_first, h]
          simp only [Bool.false_eq_true, if_false, heq]
      · refine Or.inr ⟨a :: l1, r, l2, (by rw [hdec, List.cons_append]), ?_, hr, ?_⟩
        · intro x hx
          rcases List.mem_cons.mp hx with rfl | hx
          · exact ha
          · exact hl1 x hx
        · rw [set_modified_first, h]
          simp only [Bool.false_eq_true, if_false, heq, List.cons_append]
    · refine Or.inr ⟨[], a, t, (by rw [List.nil_append]), (by intro x hx; cases hx),
        beq_iff_eq.mp h, ?_⟩
      rw [set_modified_first, h]
      simp only [if_true, List.nil_append]

lemma set_modified_first_length (projects : List ProjectRow) (pid today : String) :
    (set_modified_first projects pid today).length = projects.length := by
  rcases set_modified_first_spec projects pid today with ⟨_, heq⟩ |
    ⟨l1, r, l2, hdec, _, _, heq⟩
  · rw [heq]
  · rw [heq, hdec]
    simp

lemma validate_set_modified (projects : List ProjectRow) (pid' today pid : String) :
    validate_project_exists (set_modified_first projects pid' today) pid =
      validate_project_exists projects pid := by
  induction projects with
  | nil => rfl
  | cons a t ih =>
    rw [set_modified_first]
    cases h : a.project_id == pid'
    · simp only [Bool.false_eq_true, if_false]
      rw [validate_project_exists, validate_project_exists, List.any_cons,
        List.any_cons]
      rw [show (t.any fun row => row.project_id == pid) =
        validate_project_exists t pid from rfl, ← ih]
      rfl
    · simp only [if_true]
      rfl
lemma add_track_ok_eq (db : DB) (pid tid notes today : String)
    (h1 : validate_project_exists db.projects pid = true)
    (h2 : validate_track_exists db.tracks tid = true)
    (h3 : track_in_project db.projectTracks pid tid = false) :
    add_track db pid tid notes today = .ok (update_project_modified
      { db with projectTracks := db.projectTracks ++
        [⟨pid, tid, today, get_next_position db.projectTracks pid, notes⟩] }
      pid today) := by
  rw [add_track, h1, h2, h3]
  rfl

lemma add_track_ok_inv (db : DB) (pid tid notes today : String) (db' : DB)
    (h : add_track db pid tid notes today = .ok db') :
    validate_project_exists db.projects pid = true ∧
    validate_track_exists db.tracks tid = true ∧
    track_in_project db.projectTracks pid tid = false ∧
    db' = update_project_modified
      { db with projectTracks := db.projectTracks ++
        [⟨pid, tid, today, get_next_position db.projectTracks pid, notes⟩] }
      pid today := by
  rw [add_track] at h
  cases h1 : validate_project_exists db.projects pid
  · rw [h1] at h; cases h
  · rw [h1] at h
    cases h2 : validate_track_exists db.tracks tid
    · rw [h2] at h; cases h
    · rw [h2] at h
      cases h3 : track_in_project db.projectTracks pid tid
      · rw [h3] at h
        simp only [Bool.not_true, Bool.false_eq_true, if_false, Bool.not_false,
          if_true, Except.ok.injEq] at h
        exact ⟨rfl, rfl, rfl, h.symm⟩
      · rw [h3] at h; cases h
lemma filter_not_length (l : List PTrackRow) (p : PTrackRow → Bool) :
    (l.filter (fun r => !p r)).length + l.countP p = l.length := by
  induction l with
  | nil => rfl
  | cons a t ih =>
    rw [List.filter_cons, List.countP_cons, List.length_cons]
    cases h : p a <;> simp [h] <;> omega

lemma remove_track_error_iff (db : DB) (pid tid today : String) :
    remove_track db pid tid today = .error (.notFoundMembership pid tid) ↔
      ∀ r ∈ db.projectTracks, ¬(r.project_id = pid ∧ r.track_id = tid) := by
  rw [remove_track]
  cases h : (db.projectTracks.filter
      (fun r => !(r.project_id == pid && r.track_id == tid))).length ==
      db.projectTracks.length
  · simp only [h, Bool.false_eq_true, if_false]
    constructor
    · intro he; cases he
    · intro hall
      exfalso
      have heq : db.projectTracks.filter
          (fun r => !(r.project_id == pid && r.track_id == tid)) =
          db.projectTracks := by
        apply List.filter_eq_self.mpr
        intro r hr
        have hnot := hall r hr
        rcases hp : r.project_id == pid with _ | _
        · simp [hp]
        · rcases ht : r.track_id == tid with _ | _
          · simp [hp, ht]
          · exact absurd ⟨beq_iff_eq.mp hp, beq_iff_eq.mp ht⟩ hnot
      rw [heq] at h
      simp at h
  · simp only [h, if_true]
    constructor
    · intro _
      have hlen := beq_iff_eq.mp h
      have heq : db.projectTracks.filter
          (fun r => !(r.project_id == pid && r.track_id == tid)) =
          db.projectTracks :=
        List.Sublist.eq_of_length (List.filter_sublist _) hlen
      intro r hr hc
      have hkeep := List.filter_eq_self.mp heq r hr
      rw [beq_iff_eq.mpr hc.1, beq_iff_eq.mpr hc.2] at hkeep
      cases hkeep
    · intro _; trivial
lemma remove_track_ok_inv (db : DB) (pid tid today : String) (db' : DB)
    (h : remove_track db pid tid today = .ok db') :
    db' = update_project_modified { db with
        projectTracks := db.projectTracks.filter (fun r => !(r.project_id == pid && r.track_id == tid)) }
      pid today ∧
    (db.projectTracks.filter
        (fun r => !(r.project_id == pid && r.track_id == tid))).length ≠
      db.projectTracks.length := by
  rw [remove_track] at h
  cases hl : (db.projectTracks.filter
      (fun r => !(r.project_id == pid && r.track_id == tid))).length ==
      db.projectTracks.length
  · rw [hl] at h
    simp only [Bool.false_eq_true, if_false, Except.ok.injEq] at h
    exact ⟨h.symm, by simpa using hl⟩
  · rw [hl] at h
    cases h

lemma remove_track_error_shape (db : DB) (pid tid today : String) (e : Err)
    (h : remove_track db pid tid today = .error e) :
    e = .notFoundMembership pid tid := by
  rw [remove_track] at h
  cases hl : (db.projectTracks.filter
      (fun r => !(r.project_id == pid && r.track_id == tid))).length ==
      db.projectTracks.length
  · rw [hl] at h; cases h
  · rw [hl] at h
    simp only [if_true, Except.error.injEq] at h
    exact h.symm

lemma applyOp_addTrack_error (db : DB) (pid tid notes today : String) (e : Err)
    (h : add_track db pid tid notes today = .error e) :
    applyOp db (.addTrack pid tid notes today) = db := by
  rw [applyOp, h]

lemma applyOp_removeTrack_error (db : DB) (pid tid today : String) (e : Err)
    (h : remove_track db pid tid today = .error e) :
    applyOp db (.removeTrack pid tid today) = db := by
  rw [applyOp, h]
lemma countP_one_decomp (l : List PTrackRow) (p : PTrackRow → Bool)
    (h : l.countP p = 1) :
    ∃ l1 r l2, l = l1 ++ r :: l2 ∧ p r = true ∧
      l.filter (fun x => !p x) = l1 ++ l2 := by
  induction l with
  | nil => simp at h
  | cons a t ih =>
    rw [List.countP_cons] at h
    cases ha : p a
    · rw [ha] at h
      simp only [Bool.false_eq_true, if_false, Nat.add_zero] at h
      obtain ⟨l1, r, l2, hd, hp, hf⟩ := ih h
      refine ⟨a :: l1, r, l2, (by rw [hd, List.cons_append]), hp, ?_⟩
      rw [List.filter_cons, ha]
      simp only [Bool.not_false, if_true, hf, List.cons_append]
    · rw [ha] at h
      simp only [if_true] at h
      have ht : t.countP p = 0 := by omega
      have hkeep : t.filter (fun x => !p x) = t := by
        apply List.filter_eq_self.mpr
        intro x hx
        have := List.countP_eq_zero.mp ht x hx
        rcases hx' : p x with _ | _
        · rfl
        · exact absurd hx' this
      refine ⟨[], a, t, (by rw [List.nil_append]), ha, ?_⟩
      rw [List.filter_cons, ha]
      simp only [Bool.not_true, Bool.false_eq_true, if_false, hkeep,
        List.nil_append]

/-- C2: `AddTrack` checks its three preconditions in source order — missing
project, then missing track, then duplicate membership — each yielding its
own terminal error, and every failing invocation leaves the stored tables
exactly as they were. -/
theorem c2_addTrack_precondition_order (db : DB) (pid tid notes today : String) :
    (validate_project_exists db.projects pid = false →
      add_track db pid tid notes today = .error (.notFoundProject pid)) ∧
    (validate_project_exists db.projects pid = true →
      validate_track_exists db.tracks tid = false →
      add_track db pid tid notes today = .error (.notFoundTrack tid)) ∧
    (validate_project_exists db.projects pid = true →
      validate_track_exists db.tracks tid = true →
      track_in_project db.projectTracks pid tid = true →
      add_track db pid tid notes today = .error (.conflictDuplicate pid tid)) ∧
    (∀ e, add_track db pid tid notes today = .error e →
      applyOp db (.addTrack pid tid notes today) = db) := by
  refine ⟨?_, ?_, ?_, fun e => applyOp_addTrack_error db pid tid notes today e⟩
  · intro h1; rw [add_track, h1]; rfl
  · intro h1 h2; rw [add_track, h1, h2]; rfl
  · intro h1 h2 h3; rw [add_track, h1, h2, h3]; rfl

/-- C2 witness: on a state without project `P999`, `add_track` reports
`NotFound(project)`. -/
theorem c2_witness :
    validate_project_exists exDB.projects "P999" = false ∧
    add_track exDB "P999" "T1" "" "2025-02-01" =
      .error (.notFoundProject "P999") :=
  ⟨by decide, (c2_addTrack_precondition_order exDB "P999" "T1" "" "2025-02-01").1
    (by decide)⟩

/-- C4: `RemoveTrack` fails with `NotFound(membership)` exactly when no row
carries the composite key; a failing call leaves the whole state unchanged,
and a successful call persists the filtered membership table and touches the
`modified_on` field of the parent project. -/
theorem c4_removeTrack_notfound (db : DB) (pid tid today : String) :
    (remove_track db pid tid today = .error (.notFoundMembership pid tid) ↔
      ∀ r ∈ db.projectTracks, ¬(r.project_id = pid ∧ r.track_id = tid)) ∧
    (∀ e, remove_track db pid tid today = .error e →
      applyOp db (.removeTrack pid tid today) = db) ∧
    (∀ db', remove_track db pid tid today = .ok db' →
      db'.projectTracks = db.projectTracks.filter
        (fun r => !(r.project_id == pid && r.track_id == tid)) ∧
      db'.projects = set_modified_first db.projects pid today ∧
      db'.tracks = db.tracks) := by
  refine ⟨remove_track_error_iff db pid tid today,
    fun e => applyOp_removeTrack_error db pid tid today e, ?_⟩
  intro db' h
  obtain ⟨heq, _⟩ := remove_track_ok_inv db pid tid today db' h
  rw [heq]
  exact ⟨rfl, rfl, rfl⟩

/-- C4 witness: removing a pair that is not a member fails with the
membership error and leaves the state unchanged. -/
theorem c4_witness :
    (remove_track exDB "P001" "T2" "2025-02-01" =
      .error (.notFoundMembership "P001" "T2") ↔
      ∀ r ∈ exDB.projectTracks,
        ¬(r.project_id = "P001" ∧ r.track_id = "T2")) ∧
    applyOp exDB (.removeTrack "P001" "T2" "2025-02-01") = exDB :=
  ⟨(c4_removeTrack_notfound exDB "P001" "T2" "2025-02-01").1,
    (c4_removeTrack_notfound exDB "P001" "T2" "2025-02-01").2.1
      (.notFoundMembership "P001" "T2")
      ((c4_removeTrack_notfound exDB "P001" "T2" "2025-02-01").1.mpr
        (by decide))⟩
/-- C8: on a valid table `create_project` always succeeds, appends exactly
one row — dated today in both `created_on` and `modified_on`, status
`"Active"`, all prior rows preserved in place — and returns the new id. -/
theorem c8_createProject_appends (db : DB)
    (name description for_field keywords deadline collaborators today : String)
    (hv : valid_projects db.projects = true) :
    ∃ new_id db', create_project db name description for_field keywords
        deadline collaborators today = some (db', new_id) ∧
      db'.projects = db.projects ++
        [⟨new_id, name, description, for_field, keywords, today, today,
          "Active", deadline, collaborators⟩] ∧
      db'.projectTracks = db.projectTracks ∧ db'.tracks = db.tracks := by
  obtain ⟨m, hm, _⟩ := max_suffix_spec hv
  exact ⟨pid_string (m + 1), _,
    create_project_eq db name description for_field keywords deadline
      collaborators today hm, rfl, rfl, rfl⟩

/-- C8 witness: creating a project on the example state succeeds. -/
theorem c8_witness :
    valid_projects exDB.projects = true ∧
    ∃ new_id db', create_project exDB "N2" "D2" "F2" "K2" "2026-01-31" "C2"
        "2026-01-01" = some (db', new_id) ∧
      db'.projects = exDB.projects ++
        [⟨new_id, "N2", "D2", "F2", "K2", "2026-01-01", "2026-01-01",
          "Active", "2026-01-31", "C2"⟩] ∧
      db'.projectTracks = exDB.projectTracks ∧ db'.tracks = exDB.tracks :=
  ⟨by decide, c8_createProject_appends exDB "N2" "D2" "F2" "K2" "2026-01-31"
    "C2" "2026-01-01" (by decide)⟩

/-- C9: a successful `add_track` or `remove_track` rewrites the projects
table so that only the `modified_on` field of the first row whose
`project_id` matches changes; every other row, every other field, the row
count and the row order are untouched. -/
theorem c9_modified_on_frame (db : DB) (pid tid notes today : String)
    (db' : DB)
    (h : add_track db pid tid notes today = .ok db' ∨
      remove_track db pid tid today = .ok db') :
    db'.projects.length = db.projects.length ∧
    (((∀ row ∈ db.projects, row.project_id ≠ pid) ∧
        db'.projects = db.projects) ∨
      (∃ l1 r l2, db.projects = l1 ++ r :: l2 ∧
        (∀ x ∈ l1, x.project_id ≠ pid) ∧ r.project_id = pid ∧
        db'.projects = l1 ++ { r with modified_on := today } :: l2)) := by
  have hp : db'.projects = set_modified_first db.projects pid today := by
    rcases h with h | h
    · obtain ⟨_, _, _, heq⟩ := add_track_ok_inv db pid tid notes today db' h
      rw [heq]; rfl
    · obtain ⟨heq, _⟩ := remove_track_ok_inv db pid tid today db' h
      rw [heq]; rfl
  refine ⟨(by rw [hp, set_modified_first_length]), ?_⟩
  rw [hp]
  exact set_modified_first_spec db.projects pid today

/-- C9 witness: a successful removal on the example state updates only the
`modified_on` field of the matching row. -/
theorem c9_witness :
    remove_track exDB "P001" "T1" "2025-02-01" =
      .ok ⟨[{ exProject with modified_on := "2025-02-01" }], [], exTracks⟩ ∧
    (⟨[{ exProject with modified_on := "2025-02-01" }], [], exTracks⟩ :
        DB).projects.length = exDB.projects.length :=
  ⟨by decide,
    (c9_modified_on_frame exDB "P001" "T1" "" "2025-02-01" _
      (Or.inr (by decide))).1⟩
/-- C5 counterexample: on a membership table where the composite key occurs
twice (syntactically well-formed, though it violates the uniqueness
invariant), a successful `remove_track` deletes BOTH rows — two rows, not
"exactly one", are removed. -/
theorem c5_counterexample :
    dupDB.projectTracks.length = 2 ∧
    remove_track dupDB "P001" "T1" "2025-02-01" =
      .ok ⟨[{ exProject with modified_on := "2025-02-01" }], [], exTracks⟩ := by
  decide

/-- C5 (amended): on any table where the composite key matches at most one
row — which the uniqueness invariant guarantees — a successful
`remove_track` removes exactly one row, the matching one, and every other
row is preserved in order with its `position` (indeed all fields)
unchanged. -/
theorem c5_remove_exactly_one (db : DB) (pid tid today : String)
    (huniq : db.projectTracks.countP
      (fun r => r.project_id == pid && r.track_id == tid) ≤ 1)
    (db' : DB) (h : remove_track db pid tid today = .ok db') :
    ∃ l1 r l2, db.projectTracks = l1 ++ r :: l2 ∧
      r.project_id = pid ∧ r.track_id = tid ∧
      db'.projectTracks = l1 ++ l2 ∧
      db'.projectTracks.length + 1 = db.projectTracks.length := by
  obtain ⟨heq, hlen⟩ := remove_track_ok_inv db pid tid today db' h
  have hflen := filter_not_length db.projectTracks
    (fun r => r.project_id == pid && r.track_id == tid)
  have hpts : db'.projectTracks = db.projectTracks.filter
      (fun r => !(r.project_id == pid && r.track_id == tid)) := by
    rw [heq]; rfl
  have hc1 : db.projectTracks.countP
      (fun r => r.project_id == pid && r.track_id == tid) = 1 := by
    rcases Nat.lt_or_ge (db.projectTracks.countP
      (fun r => r.project_id == pid && r.track_id == tid)) 1 with hlt | hge
    · exfalso
      have h0 : db.projectTracks.countP
          (fun r => r.project_id == pid && r.track_id == tid) = 0 := by omega
      rw [h0] at hflen
      exact hlen (by omega)
    · omega
  obtain ⟨l1, r, l2, hd, hp, hf⟩ := countP_one_decomp db.projectTracks _ hc1
  have hpr : r.project_id = pid ∧ r.track_id = tid := by
    have := hp
    simp only [Bool.and_eq_true, beq_iff_eq] at this
    exact this
  refine ⟨l1, r, l2, hd, hpr.1, hpr.2, (by rw [hpts, hf]), ?_⟩
  rw [hpts, hf, hd]
  simp only [List.length_append, List.length_cons]
  omega

/-- C5 witness: on the example state (one matching row), removal deletes
exactly that row. -/
theorem c5_witness :
    exDB.projectTracks.countP
      (fun r => r.project_id == "P001" && r.track_id == "T1") ≤ 1 ∧
    ∃ l1 r l2, exDB.projectTracks = l1 ++ r :: l2 ∧
      r.project_id = "P001" ∧ r.track_id = "T1" ∧
      (⟨[{ exProject with modified_on := "2025-02-01" }], [], exTracks⟩ :
        DB).projectTracks = l1 ++ l2 ∧
      (⟨[{ exProject with modified_on := "2025-02-01" }], [], exTracks⟩ :
        DB).projectTracks.length + 1 = exDB.projectTracks.length :=
  ⟨by decide, c5_remove_exactly_one exDB "P001" "T1" "2025-02-01" (by decide)
    _ (by decide)⟩

/-- C10 counterexample: the claim "for every projectId absent from the
projects table, RemoveTrack fails with the membership error" is false when
an orphan membership row exists: `P009` has no project row in `orphanDB`,
yet `remove_track` succeeds. -/
theorem c10_counterexample :
    validate_project_exists orphanDB.projects "P009" = false ∧
    remove_track orphanDB "P009" "T1" "2025-02-01" =
      .ok ⟨[exProject], [], exTracks⟩ := by
  decide

/-- C10 (amended): `remove_track` performs no project-existence check; for
every `projectId` absent from the projects table and any `trackId` whose
pair also has no membership row (which referential integrity guarantees for
an absent project), it fails with the membership error — never
`NotFound(project)`, which `remove_track` can never emit — and leaves both
tables unchanged. -/
theorem c10_remove_no_project_check (db : DB) (pid tid today : String)
    (_hp : validate_project_exists db.projects pid = false)
    (hm : ∀ r ∈ db.projectTracks, ¬(r.project_id = pid ∧ r.track_id = tid)) :
    remove_track db pid tid today = .error (.notFoundMembership pid tid) ∧
    applyOp db (.removeTrack pid tid today) = db ∧
    (∀ (db₂ : DB) (pid₂ tid₂ today₂ : String) (e : Err),
      remove_track db₂ pid₂ tid₂ today₂ = .error e →
      e = .notFoundMembership pid₂ tid₂) := by
  have he := (remove_track_error_iff db pid tid today).mpr hm
  exact ⟨he, applyOp_removeTrack_error db pid tid today _ he,
    fun db₂ pid₂ tid₂ today₂ e h =>
      remove_track_error_shape db₂ pid₂ tid₂ today₂ e h⟩

/-- C10 witness: `P777` is absent from the projects table of the example
state
and has no membership row; removal fails with the membership error and
changes nothing. -/
theorem c10_witness :
    validate_project_exists exDB.projects "P777" = false ∧
    remove_track exDB "P777" "T1" "2025-02-01" =
      .error (.notFoundMembership "P777" "T1") ∧
    applyOp exDB (.removeTrack "P777" "T1" "2025-02-01") = exDB :=
  ⟨by decide,
    (c10_remove_no_project_check exDB "P777" "T1" "2025-02-01" (by decide)
      (by decide)).1,
    (c10_remove_no_project_check exDB "P777" "T1" "2025-02-01" (by decide)
      (by decide)).2.1⟩
lemma get_track_title_unknown {tracks : List TrackRow} {tid : String}
    (h : ∀ t ∈ tracks, t.id ≠ tid) : get_track_title tracks tid = "Unknown" := by
  rw [get_track_title]
  have hf : tracks.find? (fun row => row.id == tid) = none := by
    apply List.find?_eq_none.mpr
    intro t ht
    simpa using h t ht
  rw [hf]

lemma entries_pairwise_le (l : List TrackEntry) :
    (l.mergeSort (fun a b => a.position ≤ b.position)).Pairwise
      (fun a b => a.position ≤ b.position) := by
  have htrans : ∀ a b c : TrackEntry,
      decide (a.position ≤ b.position) = true →
      decide (b.position ≤ c.position) = true →
      decide (a.position ≤ c.position) = true := by
    intro a b c hab hbc
    simp only [decide_eq_true_eq] at hab hbc ⊢
    omega
  have htotal : ∀ a b : TrackEntry,
      (decide (a.position ≤ b.position) ||
        decide (b.position ≤ a.position)) = true := by
    intro a b
    rcases Int.le_total a.position b.position with h | h <;> simp [h]
  have hs := @List.sorted_mergeSort TrackEntry
    (fun a b => decide (a.position ≤ b.position)) htrans htotal l
  exact hs.imp (fun hab => by simpa using hab)

/-- C6: `list_tracks` fails with `NotFound(project)` exactly when the
project id does not exist; otherwise it returns precisely the membership rows of
the project sorted ascending by `position`, each title resolved softly
through the catalog (`"Unknown"` when the track id is absent — no error),
and a project with zero rows yields the empty sequence. -/
theorem c6_listTracks (db : DB) (pid : String) :
    (validate_project_exists db.projects pid = false →
      list_tracks db pid = .error (.notFoundProject pid)) ∧
    (validate_project_exists db.projects pid = true →
      ∃ entries, list_tracks db pid = .ok entries ∧
        entries.Perm ((db.projectTracks.filter
            (fun r => r.project_id == pid)).map
          (fun r => ⟨r.position, r.track_id,
            get_track_title db.tracks r.track_id, r.added_date, r.notes⟩)) ∧
        entries.Pairwise (fun a b => a.position ≤ b.position) ∧
        (∀ e ∈ entries, e.title = get_track_title db.tracks e.track_id) ∧
        (∀ e ∈ entries, (∀ t ∈ db.tracks, t.id ≠ e.track_id) →
          e.title = "Unknown") ∧
        (db.projectTracks.filter (fun r => r.project_id == pid) = [] →
          entries = [])) := by
  constructor
  · intro h1; rw [list_tracks, h1]; rfl
  · intro h1
    rw [list_tracks, h1]
    simp only [Bool.not_true, Bool.false_eq_true, if_false]
    refine ⟨_, rfl, List.mergeSort_perm _ _, entries_pairwise_le _, ?_, ?_, ?_⟩
    · intro e he
      rw [List.mem_mergeSort] at he
      obtain ⟨r, _, rfl⟩ := List.mem_map.mp he
      rfl
    · intro e he habs
      rw [List.mem_mergeSort] at he
      obtain ⟨r, _, rfl⟩ := List.mem_map.mp he
      exact get_track_title_unknown habs
    · intro hnil
      rw [hnil]
      simp

/-- C6 witness: on the example state, listing an existing project succeeds
with all the stated properties; on a missing project it fails. -/
theorem c6_witness :
    (validate_project_exists exDB.projects "P404" = false ∧
      list_tracks exDB "P404" = .error (.notFoundProject "P404")) ∧
    (validate_project_exists exDB.projects "P001" = true ∧
      ∃ entries, list_tracks exDB "P001" = .ok entries ∧
        entries.Perm ((exDB.projectTracks.filter
            (fun r => r.project_id == "P001")).map
          (fun r => ⟨r.position, r.track_id,
            get_track_title exDB.tracks r.track_id, r.added_date, r.notes⟩)) ∧
        entries.Pairwise (fun a b => a.position ≤ b.position) ∧
        (∀ e ∈ entries, e.title = get_track_title exDB.tracks e.track_id) ∧
        (∀ e ∈ entries, (∀ t ∈ exDB.tracks, t.id ≠ e.track_id) →
          e.title = "Unknown") ∧
        (exDB.projectTracks.filter (fun r => r.project_id == "P001") = [] →
          entries = [])) :=
  ⟨⟨by decide, (c6_listTracks exDB "P404").1 (by decide)⟩,
    ⟨by decide, (c6_listTracks exDB "P001").2 (by decide)⟩⟩
/-- C3: when the three preconditions pass, `add_track` appends exactly one
membership row whose `position` is `1 + max(position)` over the existing
rows of the project (1 on a project with none) and whose `added_date` is today,
persists the table, sets the `modified_on` field of the parent project to
today, and an
immediate `list_tracks` includes the added track at that position. -/
theorem c3_addTrack_success (db : DB) (pid tid notes today : String)
    (h1 : validate_project_exists db.projects pid = true)
    (h2 : validate_track_exists db.tracks tid = true)
    (h3 : track_in_project db.projectTracks pid tid = false) :
    ∃ db', add_track db pid tid notes today = .ok db' ∧
      get_next_position db.projectTracks pid =
        spec_next_position db.projectTracks pid ∧
      db'.projectTracks = db.projectTracks ++
        [⟨pid, tid, today, spec_next_position db.projectTracks pid, notes⟩] ∧
      (positions_of db.projectTracks pid = [] →
        spec_next_position db.projectTracks pid = 1) ∧
      db'.projects = set_modified_first db.projects pid today ∧
      (∃ r ∈ db'.projects, r.project_id = pid ∧ r.modified_on = today) ∧
      ∃ entries, list_tracks db' pid = .ok entries ∧
        (⟨spec_next_position db.projectTracks pid, tid,
          get_track_title db.tracks tid, today, notes⟩ : TrackEntry) ∈
          entries := by
  have hok := add_track_ok_eq db pid tid notes today h1 h2 h3
  refine ⟨_, hok, get_next_position_eq_spec db.projectTracks pid, ?_, ?_, rfl,
    ?_, ?_⟩
  · show db.projectTracks ++
      [⟨pid, tid, today, get_next_position db.projectTracks pid, notes⟩] = _
    rw [get_next_position_eq_spec]
  · intro hempty
    rw [spec_next_position]
    have hnil : (db.projectTracks.filter
        (fun r => r.project_id == pid)).map (fun r => r.position) = [] :=
      hempty
    rw [hnil]
    decide
  · show ∃ r ∈ set_modified_first db.projects pid today, _
    obtain ⟨row, hrow, hrowid⟩ := validate_project_exists_iff.mp h1
    rcases set_modified_first_spec db.projects pid today with ⟨hall, _⟩ |
      ⟨l1, r, l2, _, _, hr, he⟩
    · exact absurd hrowid (hall row hrow)
    · refine ⟨{ r with modified_on := today }, ?_, hr, rfl⟩
      rw [he]
      exact List.mem_append_right l1 (List.mem_cons_self _ _)
  · have hval' : validate_project_exists
        (set_modified_first db.projects pid today) pid = true := by
      rw [validate_set_modified]
      exact h1
    rw [list_tracks]
    rw [show (update_project_modified { db with
        projectTracks := db.projectTracks ++ [⟨pid, tid, today, get_next_position db.projectTracks pid, notes⟩] }
        pid today).projects = set_modified_first db.projects pid today from rfl]
    rw [hval']
    simp only [Bool.not_true, Bool.false_eq_true, if_false]
    refine ⟨_, rfl, ?_⟩
    rw [List.mem_mergeSort, ← get_next_position_eq_spec]
    apply List.mem_map.mpr
    refine ⟨⟨pid, tid, today, get_next_position db.projectTracks pid, notes⟩,
      ?_, rfl⟩
    apply List.mem_filter.mpr
    exact ⟨List.mem_append_right _ (List.mem_cons_self _ _), by simp⟩

/-- C3 witness: adding `T2` to `P001` on the example state (whose only
`P001` row has position 1) succeeds with all the stated properties. -/
theorem c3_witness :
    (validate_project_exists exDB.projects "P001" = true ∧
      validate_track_exists exDB.tracks "T2" = true ∧
      track_in_project exDB.projectTracks "P001" "T2" = false) ∧
    ∃ db', add_track exDB "P001" "T2" "" "2025-02-01" = .ok db' ∧
      get_next_position exDB.projectTracks "P001" =
        spec_next_position exDB.projectTracks "P001" ∧
      db'.projectTracks = exDB.projectTracks ++
        [⟨"P001", "T2", "2025-02-01",
          spec_next_position exDB.projectTracks "P001", ""⟩] ∧
      (positions_of exDB.projectTracks "P001" = [] →
        spec_next_position exDB.projectTracks "P001" = 1) ∧
      db'.projects = set_modified_first exDB.projects "P001" "2025-02-01" ∧
      (∃ r ∈ db'.projects, r.project_id = "P001" ∧
        r.modified_on = "2025-02-01") ∧
      ∃ entries, list_tracks db' "P001" = .ok entries ∧
        (⟨spec_next_position exDB.projectTracks "P001", "T2",
          get_track_title exDB.tracks "T2", "2025-02-01", ""⟩ :
          TrackEntry) ∈ entries :=
  ⟨⟨by decide, by decide, by decide⟩,
    c3_addTrack_success exDB "P001" "T2" "" "2025-02-01" (by decide)
      (by decide) (by decide)⟩
lemma applyOp_create_frame (db : DB)
    (n d f k dl c t : String) :
    (applyOp db (.createProject n d f k dl c t)).projectTracks =
      db.projectTracks ∧
    (applyOp db (.createProject n d f k dl c t)).tracks = db.tracks := by
  rw [applyOp, create_project]
  rcases hg : get_next_project_id db.projects with _ | s
  · exact ⟨rfl, rfl⟩
  · exact ⟨rfl, rfl⟩

lemma pairs_unique_applyOp (db : DB) (op : Op)
    (h1 : pairs_unique db.projectTracks)
    (h2 : positions_distinct db.projectTracks) :
    pairs_unique (applyOp db op).projectTracks ∧
      positions_distinct (applyOp db op).projectTracks := by
  cases op with
  | createProject n d f k dl c t =>
    rw [(applyOp_create_frame db n d f k dl c t).1]
    exact ⟨h1, h2⟩
  | addTrack pid tid notes today =>
    rw [applyOp]
    rcases ha : add_track db pid tid notes today with e | db'
    · exact ⟨h1, h2⟩
    · obtain ⟨_, _, h3, heq⟩ := add_track_ok_inv db pid tid notes today db' ha
      have hpts : db'.projectTracks = db.projectTracks ++
          [⟨pid, tid, today, get_next_position db.projectTracks pid,
            notes⟩] := by
        rw [heq]; rfl
      constructor
      · rw [pairs_unique, hpts, List.pairwise_append]
        refine ⟨h1, List.pairwise_singleton _ _, ?_⟩
        intro a hmem b hb
        rcases List.mem_singleton.mp hb with rfl
        exact track_in_project_eq_false.mp h3 a hmem
      · rw [positions_distinct, hpts, List.pairwise_append]
        refine ⟨h2, List.pairwise_singleton _ _, ?_⟩
        intro a hmem b hb
        rcases List.mem_singleton.mp hb with rfl
        intro hpid hpos
        have := position_lt_next db.projectTracks pid a hmem hpid
        rw [hpos] at this
        exact absurd this (lt_irrefl _)
  | removeTrack pid tid today =>
    rw [applyOp]
    rcases hr : remove_track db pid tid today with e | db'
    · exact ⟨h1, h2⟩
    · obtain ⟨heq, _⟩ := remove_track_ok_inv db pid tid today db' hr
      have hpts : db'.projectTracks = db.projectTracks.filter
          (fun r => !(r.project_id == pid && r.track_id == tid)) := by
        rw [heq]; rfl
      rw [pairs_unique, positions_distinct, hpts]
      exact ⟨List.Pairwise.sublist (List.filter_sublist _) h1,
        List.Pairwise.sublist (List.filter_sublist _) h2⟩

lemma invariants_applyOps (ops : List Op) : ∀ db : DB,
    pairs_unique db.projectTracks → positions_distinct db.projectTracks →
    pairs_unique (applyOps db ops).projectTracks ∧
      positions_distinct (applyOps db ops).projectTracks := by
  induction ops with
  | nil => intro db h1 h2; exact ⟨h1, h2⟩
  | cons op rest ih =>
    intro db h1 h2
    obtain ⟨h1', h2'⟩ := pairs_unique_applyOp db op h1 h2
    exact ih (applyOp db op) h1' h2'
lemma positions_of_append (pts : List PTrackRow) (row : PTrackRow)
    (pid : String) :
    positions_of (pts ++ [row]) pid = positions_of pts pid ++
      (if row.project_id == pid then [row.position] else []) := by
  rw [positions_of, positions_of, List.filter_append, List.map_append]
  congr 1
  cases h : row.project_id == pid <;> simp [List.filter_cons, h]

lemma dense_fold (k : Nat) :
    ((List.range k).map (fun i : Nat => (i : Int) + 1)).foldl max 0 = k := by
  induction k with
  | zero => rfl
  | succ k ih =>
    rw [List.range_succ, List.map_append, List.foldl_append, ih]
    show max (k : Int) ((k : Int) + 1) = ((k + 1 : Nat) : Int)
    rw [max_eq_right (by omega)]
    push_cast
    ring

lemma get_next_position_dense (pts : List PTrackRow) (pid : String)
    (h : positions_of pts pid =
      (List.range (positions_of pts pid).length).map (fun i : Nat => (i : Int) + 1)) :
    get_next_position pts pid = ((positions_of pts pid).length : Int) + 1 := by
  rw [get_next_position_eq_spec, spec_next_position]
  have hlist : (pts.filter (fun r => r.project_id == pid)).map
      (fun r => r.position) = positions_of pts pid := rfl
  rw [hlist, h, dense_fold, List.length_map, List.length_range]

lemma dense_applyOp (db : DB) (op : Op) (hop : is_removeOp op = false)
    (hd : is_dense db.projectTracks) :
    is_dense (applyOp db op).projectTracks := by
  cases op with
  | createProject n d f k dl c t =>
    rw [(applyOp_create_frame db n d f k dl c t).1]
    exact hd
  | addTrack pid tid notes today =>
    rw [applyOp]
    rcases ha : add_track db pid tid notes today with e | db'
    · exact hd
    · obtain ⟨_, _, _, heq⟩ := add_track_ok_inv db pid tid notes today db' ha
      have hpts : db'.projectTracks = db.projectTracks ++
          [⟨pid, tid, today, get_next_position db.projectTracks pid,
            notes⟩] := by
        rw [heq]; rfl
      intro q
      rw [hpts, positions_of_append]
      cases hq : (pid == q)
      · simp only [Bool.false_eq_true, if_false, List.append_nil]
        exact hd q
      · rcases beq_iff_eq.mp hq with rfl
        simp only [if_true]
        rw [get_next_position_dense db.projectTracks pid (hd pid)]
        rw [List.length_append, List.length_singleton, List.range_succ,
          List.map_append]
        congr 1
        exact hd pid
  | removeTrack pid tid today =>
    cases hop

lemma dense_applyOps (ops : List Op) : ∀ db : DB,
    is_dense db.projectTracks → (∀ op ∈ ops, is_removeOp op = false) →
    is_dense (applyOps db ops).projectTracks := by
  induction ops with
  | nil => intro db hd _; exact hd
  | cons op rest ih =>
    intro db hd hno
    exact ih (applyOp db op)
      (dense_applyOp db op (hno op (List.mem_cons_self _ _)) hd)
      (fun o ho => hno o (List.mem_cons_of_mem _ ho))
/-- C7: every operation preserves the membership invariants — in every state
reachable by `create_project` / `add_track` / `remove_track` invocations
from a state satisfying them, each `(project_id, track_id)` pair appears at
most once and positions are pairwise distinct within each project — and
when no invocation is a removal, dense positions `1..n` per project are
preserved as well. -/
theorem c7_membership_invariants :
    (∀ (db : DB) (ops : List Op),
      pairs_unique db.projectTracks → positions_distinct db.projectTracks →
      pairs_unique (applyOps db ops).projectTracks ∧
        positions_distinct (applyOps db ops).projectTracks) ∧
    (∀ (db : DB) (ops : List Op), is_dense db.projectTracks →
      (∀ op ∈ ops, is_removeOp op = false) →
      is_dense (applyOps db ops).projectTracks) :=
  ⟨fun db ops h1 h2 => invariants_applyOps ops db h1 h2,
    fun db ops hd hno => dense_applyOps ops db hd hno⟩

/-- C7 witness: one `add_track` invocation on the example state keeps both
invariants and density. -/
theorem c7_witness :
    (pairs_unique
        (applyOps exDB [.addTrack "P001" "T2" "" "2025-02-01"]).projectTracks ∧
      positions_distinct
        (applyOps exDB
          [.addTrack "P001" "T2" "" "2025-02-01"]).projectTracks) ∧
    is_dense
      (applyOps exDB [.addTrack "P001" "T2" "" "2025-02-01"]).projectTracks := by
  have h1 : pairs_unique exDB.projectTracks := by
    rw [pairs_unique]
    exact List.pairwise_singleton _ _
  have h2 : positions_distinct exDB.projectTracks := by
    rw [positions_distinct]
    exact List.pairwise_singleton _ _
  have hd : is_dense exDB.projectTracks := by
    intro q
    cases hq : (("P001" : String) == q)
    · have : positions_of exDB.projectTracks q = [] := by
        simp [positions_of, exDB, List.filter, hq]
      rw [this]
      rfl
    · rcases beq_iff_eq.mp hq with rfl
      decide
  exact ⟨c7_membership_invariants.1 exDB
      [.addTrack "P001" "T2" "" "2025-02-01"] h1 h2,
    c7_membership_invariants.2 exDB [.addTrack "P001" "T2" "" "2025-02-01"] hd
      (by decide)⟩
/-- C1 witness: two `create_project` calls on the valid example table
succeed and assign one id each. -/
theorem c1_witness :
    valid_projects exDB.projects = true ∧
    (run_creates exDB [exCreateArgs, exCreateArgs]).2.length =
      [exCreateArgs, exCreateArgs].length :=
  ⟨by decide, (c1_createProject_id_assignment exDB [exCreateArgs, exCreateArgs]
    (by decide)).1⟩

end ProjectOps
